import Mathlib

/-!
Verification of the identicon generator (`src/lib.rs`, `src/hsl.rs`).

Embedding conventions:
* `f32` values are modelled as `ℚ`; every floating-point expression the code
  evaluates is exactly representable at the inputs the theorems speak about.
* `u8` is `Fin 256`, `u32`/`usize` arithmetic is `Nat` with explicit wrapping
  where overflow can occur.
* Operations that can panic (slice indexing, `ImageBuffer::put_pixel`) return
  `Option`, `none` being the panic.
-/

/-- RGB color with 8-bit channels, as `image::Rgb<u8>` in the source. -/
structure Rgb where
  r : Nat
  g : Nat
  b : Nat
deriving DecidableEq, Repr

/-- Rust `f32::round`: round half away from zero, on the rational model of `f32`. -/
def f32round (q : ℚ) : ℤ :=
  if q < 0 then -⌊-q + 1/2⌋ else ⌊q + 1/2⌋

/-- Rust float `as u8` cast: saturating conversion to the `u8` range. -/
def toU8 (z : ℤ) : Nat := (min 255 (max 0 z)).toNat

/-- `struct HSL` from `src/hsl.rs` (fields `hue`, `sat`, `lum` are `f32`). -/
structure HSL where
  hue : ℚ
  sat : ℚ
  lum : ℚ

/-- `HSL::new` from `src/hsl.rs`. -/
def HSL.new (hue sat lum : ℚ) : HSL := ⟨hue, sat, lum⟩

/-- `HSL::hue_to_rgb` from `src/hsl.rs`. -/
def HSL.hue_to_rgb (a b hue : ℚ) : ℚ :=
  let h := if hue < 0 then hue + 1 else if hue > 1 then hue - 1 else hue
  if h < 1/6 then a + (b - a) * 6 * h
  else if h < 1/2 then b
  else if h < 2/3 then a + (b - a) * (2/3 - h) * 6
  else a

/-- `HSL::rgb` from `src/hsl.rs`. The source shadows `b` for the blue channel;
here it is `b2`. -/
def HSL.rgb (self : HSL) : Rgb :=
  let hue := self.hue / 360
  let sat := self.sat / 100
  let lum := self.lum / 100
  let b := if lum ≤ 1/2 then lum * (sat + 1) else lum + sat - lum * sat
  let a := lum * 2 - b
  let r := HSL.hue_to_rgb a b (hue + 1/3)
  let g := HSL.hue_to_rgb a b hue
  let b2 := HSL.hue_to_rgb a b (hue - 1/3)
  ⟨toU8 (f32round (r * 255)), toU8 (f32round (g * 255)), toU8 (f32round (b2 * 255))⟩

/-- `u32` wrapping subtraction (release-mode semantics of `a - b` on `u32`). -/
def u32sub (a b : Nat) : Nat := (a + 2 ^ 32 - b) % 2 ^ 32

/-- `fn map` from `src/lib.rs`: the subtractions are on `u32`, the scaling on
`f32` (modelled as `ℚ`). -/
def map (value vmin vmax dmin dmax : Nat) : ℚ :=
  (u32sub value vmin : ℚ) * ((u32sub dmax dmin : ℚ) / (u32sub vmax vmin : ℚ)) + (dmin : ℚ)

/-- A byte (`u8`). -/
abbrev Byte := Fin 256

/-- Modelled from the spec: `nibbler.rs` (the `Nibbler` iterator) is not under
`src/`. Spec §4.1: a lazy, finite sequence of 4-bit values, the high nibble of
each byte before its low nibble, in source order, of length exactly twice the
byte count. -/
def nibbles (source : List Byte) : List Nat :=
  source.flatMap (fun b => [b.val / 16, b.val % 16])

/-- `struct IdenticonJSOptions` from `src/lib.rs` (two `f32` fields). -/
structure IdenticonJSOptions where
  saturation : ℚ
  brightness : ℚ

/-- `Default for IdenticonJSOptions` from `src/lib.rs`. -/
def IdenticonJSOptions.mkDefault : IdenticonJSOptions := ⟨7/10, 1/2⟩

/-- `enum Mode` from `src/lib.rs`. -/
inductive Mode where
  | github
  | identiconJS (opts : IdenticonJSOptions)

/-- `struct Identicon` from `src/lib.rs` (the `source` slice is modelled as the
list of its bytes). -/
structure Identicon where
  source : List Byte
  size : Nat
  mode : Mode

/-- `Identicon::new` from `src/lib.rs`: size 420, GitHub mode. -/
def Identicon.new (source : List Byte) : Identicon :=
  ⟨source, 420, Mode.github⟩

/-- The fluent `mode` builder from `src/lib.rs` (named `withMode` here because
the struct field is already called `mode`). -/
def Identicon.withMode (self : Identicon) (mode : Mode) : Identicon :=
  { self with mode := mode }

/-- `Identicon::foreground` from `src/lib.rs`. Slice indexing is `List.get?`,
`none` modelling the out-of-bounds panic; in the Identicon.js arm the source
computes `len - 4` on `usize`, which for `len < 4` wraps to a huge index and
panics, modelled by the explicit length guard. -/
def Identicon.foreground (self : Identicon) : Option Rgb :=
  match self.mode with
  | Mode.github => do
      let s12 ← self.source.get? 12
      let s13 ← self.source.get? 13
      let s14 ← self.source.get? 14
      let s15 ← self.source.get? 15
      let h1 := (s12.val &&& 0x0f) <<< 8
      let h2 := s13.val
      let h := h1 ||| h2
      let s := s14.val
      let l := s15.val
      let hue := map h 0 4095 0 360
      let sat := map s 0 255 0 20
      let lum := map l 0 255 0 20
      some ((HSL.new hue (65 - sat) (75 - lum)).rgb)
  | Mode.identiconJS opts =>
      let l := self.source.length
      if l < 4 then none else do
      let b4 ← self.source.get? (l - 4)
      let b3 ← self.source.get? (l - 3)
      let b2 ← self.source.get? (l - 2)
      let b1 ← self.source.get? (l - 1)
      let h0 := b4.val &&& 0x0f
      let h := ((h0 <<< 8 ||| b3.val) <<< 8 ||| b2.val) <<< 8 ||| b1.val
      let hue := map h 0 0x0fffffff 0 360
      let sat := opts.saturation * 100
      let lum := opts.brightness * 100
      some ((HSL.new hue sat lum).rgb)

/-- The iteration order of the two nested loops in `Identicon::pixels`:
`for col in (0..3).rev() { for row in 0..5 { ... } }`. -/
def pixelsOrder : List (Nat × Nat) :=
  ((List.range 3).reverse).flatMap (fun col => (List.range 5).map (fun row => (col, row)))

/-- The loop body of `Identicon::pixels`: `bits` is the remaining parity-bit
iterator (`nibbles.next().unwrap_or(false)` is `headD false` / `tail`). -/
def pixelsLoop : List (Nat × Nat) → List Bool → List Bool → List Bool
  | [], _, px => px
  | (col, row) :: rest, bits, px =>
    let ix := col + row * 5
    let mirror_col := 4 - col
    let mirror_ix := mirror_col + row * 5
    let paint := bits.headD false
    pixelsLoop rest bits.tail ((px.set ix paint).set mirror_ix paint)

/-- `Identicon::pixels` from `src/lib.rs`. -/
def Identicon.pixels (self : Identicon) : List Bool :=
  pixelsLoop pixelsOrder
    ((nibbles self.source).map (fun x => decide (x % 2 = 0)))
    (List.replicate 25 false)

/-- An `RgbImage` buffer: dimensions plus pixel contents. -/
structure Img where
  width : Nat
  height : Nat
  data : Nat → Nat → Rgb

/-- `ImageBuffer::put_pixel`, which panics when the coordinate is out of
bounds (`none`). -/
def putPixel (img : Img) (x y : Nat) (c : Rgb) : Option Img :=
  if x < img.width ∧ y < img.height then
    some { img with data := fun a b => if a = x ∧ b = y then c else img.data a b }
  else none

/-- `Identicon::rect` from `src/lib.rs`: `for x in x0..x1 { for y in y0..y1 {
put_pixel } }`. -/
def rect (img : Img) (x0 y0 x1 y1 : Nat) (c : Rgb) : Option Img :=
  (List.range' x0 (x1 - x0)).foldlM
    (fun im x => (List.range' y0 (y1 - y0)).foldlM (fun im2 y => putPixel im2 x y c) im) img

/-- `Identicon::image` from `src/lib.rs`. The source iterates
`pixels().chunks(5).enumerate()` and then each chunk's entries: chunk `row`
holds exactly the grid entries `row*5 + col`, `col < 5`, of the 25-element
array. -/
def Identicon.image (self : Identicon) : Option Img := do
  let pixel_size := 70
  let sprite_size := 5
  let margin := pixel_size / 2
  let background : Rgb := ⟨240, 240, 240⟩
  let foreground ← self.foreground
  let img : Img := ⟨self.size, self.size, fun _ _ => background⟩
  let px := self.pixels
  (List.range 5).foldlM (fun im row =>
    (List.range 5).foldlM (fun im2 col =>
      if px.getD (row * sprite_size + col) false then
        let x := col * pixel_size
        let y := row * pixel_size
        rect im2 (x + margin) (y + margin) (x + pixel_size + margin) (y + pixel_size + margin)
          foreground
      else pure im2) im) img

/-! ### Helper lemmas -/

lemma get_some_of_lt {α} (l : List α) (n : ℕ) (d : α) (h : n < l.length) :
    l.get? n = some (l.getD n d) := by
  rw [List.get?_eq_getElem?, List.getD_eq_getElem?_getD, List.getElem?_eq_getElem h]
  rfl

lemma u32sub_eq (a b : ℕ) (h : b ≤ a) (h2 : a < 2 ^ 32) : u32sub a b = a - b := by
  unfold u32sub
  omega

lemma shiftLeft8_lor (x y : ℕ) (hy : y < 256) : (x <<< 8) ||| y = x * 256 + y := by
  have hy' : y < 2 ^ 8 := by omega
  apply Nat.eq_of_testBit_eq
  intro i
  rw [Nat.testBit_lor, Nat.testBit_shiftLeft, show x * 256 + y = 2 ^ 8 * x + y by ring,
    Nat.testBit_mul_pow_two_add x hy' i]
  by_cases hi : i < 8
  · have hge : ¬ (i ≥ 8) := by omega
    simp [hi, hge]
  · have h8 : i ≥ 8 := by omega
    have hfalse : y.testBit i = false :=
      Nat.testBit_lt_two_pow (lt_of_lt_of_le hy' (Nat.pow_le_pow_right (by norm_num) h8))
    simp [hi, h8, hfalse]

lemma land15 (b : ℕ) : b &&& 15 = b % 16 := by
  have h := Nat.and_pow_two_sub_one_eq_mod b 4
  norm_num at h
  exact h

lemma headD_eq_getD (l : List Bool) : l.headD false = l.getD 0 false := by
  cases l <;> rfl

lemma tail_getD (l : List Bool) (n : ℕ) : l.tail.getD n false = l.getD (n + 1) false := by
  cases l <;> rfl

lemma getD_map_parity (l : List ℕ) (k : ℕ) :
    (l.map (fun x => decide (x % 2 = 0))).getD k false =
      (match l.get? k with
       | some n => decide (n % 2 = 0)
       | none => false) := by
  induction l generalizing k with
  | nil => cases k <;> rfl
  | cons a t ih =>
    cases k with
    | zero => rfl
    | succ k => simpa using ih k

lemma length_nibbles (s : List Byte) : (nibbles s).length = 2 * s.length := by
  induction s with
  | nil => rfl
  | cons b t ih =>
    simp only [nibbles] at ih ⊢
    simp [List.flatMap_cons, ih]
    omega

lemma image_none_of_foreground_none (i : Identicon) (h : i.foreground = none) :
    i.image = none := by
  simp [Identicon.image, h]

lemma byte_map20_bounds (v : ℕ) (hv : v < 256) :
    0 ≤ map v 0 255 0 20 ∧ map v 0 255 0 20 ≤ 20 := by
  have h1 : u32sub v 0 = v := u32sub_eq v 0 (Nat.zero_le v) (by omega)
  have h2 : u32sub 20 0 = 20 := u32sub_eq 20 0 (by norm_num) (by norm_num)
  have h3 : u32sub 255 0 = 255 := u32sub_eq 255 0 (by norm_num) (by norm_num)
  have hvq : (v : ℚ) ≤ 255 := by exact_mod_cast Nat.lt_succ_iff.mp hv
  constructor
  · unfold map
    rw [h1, h2, h3]
    have hv0 : (0 : ℚ) ≤ (v : ℚ) := Nat.cast_nonneg v
    have := mul_nonneg hv0 (by norm_num : (0 : ℚ) ≤ (20 : ℚ) / 255)
    push_cast
    linarith
  · unfold map
    rw [h1, h2, h3]
    push_cast
    calc (v : ℚ) * (20 / 255) + 0 ≤ 255 * (20 / 255) + 0 := by
          have := mul_le_mul_of_nonneg_right hvq (by norm_num : (0:ℚ) ≤ 20 / 255)
          linarith
      _ = 20 := by norm_num

/-! ### The affine rescale as the spec states it -/

/-- The affine rescale written as the spec's formula reads, with exact
arithmetic on the operands (so `dmax - dmin` can be negative). -/
def mapSpec (value vmin vmax dmin dmax : ℕ) : ℚ :=
  ((value : ℚ) - vmin) * ((dmax : ℚ) - dmin) / ((vmax : ℚ) - vmin) + dmin

/-! ### Claims -/

/-- C7 counterexample: at `map(1, 0, 2, 1, 0)` the hypotheses of the claim
hold (`0 ≤ 1 ≤ 2`, `2 ≠ 0`) but the code's `u32` subtraction `dmax - dmin`
wraps, so the result is `(2^32 - 1)/2 + 1`, not the formula's `1/2`. -/
theorem map_formula_counterexample : ¬ (map 1 0 2 1 0 = mapSpec 1 0 2 1 0) := by
  norm_num [map, mapSpec, u32sub]

/-- C7 (amended): with the additional precondition `dmin ≤ dmax` (and the
operands in `u32` range), `map` equals the affine formula, hits the two
documented endpoints, and is monotone in `value`. -/
theorem map_affine (value vmin vmax dmin dmax : ℕ)
    (hlow : vmin ≤ value) (hhigh : value ≤ vmax) (_hne : vmax ≠ vmin)
    (hd : dmin ≤ dmax) (hv32 : vmax < 2 ^ 32) (hd32 : dmax < 2 ^ 32) :
    map value vmin vmax dmin dmax = mapSpec value vmin vmax dmin dmax ∧
    map 0 0 100 20 120 = 20 ∧
    map 100 0 100 20 120 = 120 ∧
    (∀ v w, vmin ≤ v → v ≤ w → w ≤ vmax →
      map v vmin vmax dmin dmax ≤ map w vmin vmax dmin dmax) := by
  have hvv : vmin ≤ vmax := le_trans hlow hhigh
  refine ⟨?_, ?_, ?_, ?_⟩
  · rw [map, mapSpec, u32sub_eq value vmin hlow (by omega),
      u32sub_eq dmax dmin hd hd32, u32sub_eq vmax vmin hvv hv32,
      Nat.cast_sub hlow, Nat.cast_sub hd, Nat.cast_sub hvv]
    ring
  · norm_num [map, u32sub]
  · norm_num [map, u32sub]
  · intro v w hv hvw hw
    rw [map, map, u32sub_eq v vmin hv (by omega), u32sub_eq w vmin (le_trans hv hvw) (by omega)]
    apply add_le_add_right
    apply mul_le_mul_of_nonneg_right
    · exact_mod_cast Nat.sub_le_sub_right hvw vmin
    · positivity

/-- C7 witness: the amended theorem applied at `map(1, 0, 2, 0, 10)`. -/
theorem map_affine_witness :
    map 1 0 2 0 10 = mapSpec 1 0 2 0 10 ∧
    map 0 0 100 20 120 = 20 ∧
    map 100 0 100 20 120 = 120 ∧
    (∀ v w, 0 ≤ v → v ≤ w → w ≤ 2 → map v 0 2 0 10 ≤ map w 0 2 0 10) :=
  map_affine 1 0 2 0 10 (by decide) (by decide) (by decide) (by decide) (by decide) (by decide)

/-- C8: the HSL→RGB conversion hits the boundary values `HSL(0,0,0) = black`,
`HSL(0,0,100) = white` and `HSL(120,100,50) = pure green`. -/
theorem hsl_boundary :
    (HSL.new 0 0 0).rgb = ⟨0, 0, 0⟩ ∧
    (HSL.new 0 0 100).rgb = ⟨255, 255, 255⟩ ∧
    (HSL.new 120 100 50).rgb = ⟨0, 255, 0⟩ := by
  refine ⟨?_, ?_, ?_⟩ <;>
      norm_num [HSL.new, HSL.rgb, HSL.hue_to_rgb, toU8, f32round] <;>
    decide

/-- C2: in GitHub mode, for a source of at least 16 bytes, the foreground is
the HSL→RGB conversion of hue `map(((s[12] & 0x0f) << 8) | s[13], 0, 4095, 0,
360)`, saturation `65 - map(s[14], 0, 255, 0, 20)` (in `[45, 65]`), luminance
`75 - map(s[15], 0, 255, 0, 20)` (in `[55, 75]`). -/
theorem github_foreground (s : List Byte) (h : 16 ≤ s.length) :
    ((Identicon.new s).withMode Mode.github).foreground =
      some ((HSL.new
        (map ((((s.getD 12 0).val &&& 0x0f) <<< 8) ||| (s.getD 13 0).val) 0 4095 0 360)
        (65 - map (s.getD 14 0).val 0 255 0 20)
        (75 - map (s.getD 15 0).val 0 255 0 20)).rgb) ∧
    45 ≤ 65 - map (s.getD 14 0).val 0 255 0 20 ∧
    65 - map (s.getD 14 0).val 0 255 0 20 ≤ 65 ∧
    55 ≤ 75 - map (s.getD 15 0).val 0 255 0 20 ∧
    75 - map (s.getD 15 0).val 0 255 0 20 ≤ 75 := by
  obtain ⟨hs, hl⟩ := byte_map20_bounds (s.getD 14 0).val (s.getD 14 0).isLt
  obtain ⟨hs2, hl2⟩ := byte_map20_bounds (s.getD 15 0).val (s.getD 15 0).isLt
  refine ⟨?_, by linarith, by linarith, by linarith, by linarith⟩
  simp only [Identicon.foreground, Identicon.withMode, Identicon.new,
    get_some_of_lt s 12 (0 : Byte) (by omega), get_some_of_lt s 13 (0 : Byte) (by omega),
    get_some_of_lt s 14 (0 : Byte) (by omega), get_some_of_lt s 15 (0 : Byte) (by omega),
    Option.bind_some]
  rfl

/-- C2 witness: the theorem applied to the all-zero 16-byte source. -/
theorem github_foreground_witness :
    16 ≤ (List.replicate 16 (0 : Byte)).length ∧
    ((Identicon.new (List.replicate 16 (0 : Byte))).withMode Mode.github).foreground =
      some ((HSL.new (map 0 0 4095 0 360) (65 - map 0 0 255 0 20)
        (75 - map 0 0 255 0 20)).rgb) :=
  ⟨by decide, ((github_foreground (List.replicate 16 (0 : Byte)) (by decide)).1)⟩

/-- C9: a source shorter than 16 bytes in GitHub mode, or shorter than 4 bytes
in Identicon.js mode, makes `foreground` (and hence `image`) abort — `none`,
the model of the indexing panic — rather than produce a color. -/
theorem short_source_panics (s : List Byte) (opts : IdenticonJSOptions) :
    (s.length < 16 →
      ((Identicon.new s).withMode Mode.github).foreground = none ∧
      ((Identicon.new s).withMode Mode.github).image = none) ∧
    (s.length < 4 →
      ((Identicon.new s).withMode (Mode.identiconJS opts)).foreground = none ∧
      ((Identicon.new s).withMode (Mode.identiconJS opts)).image = none) := by
  constructor
  · intro hshort
    have hfg : ((Identicon.new s).withMode Mode.github).foreground = none := by
      simp only [Identicon.foreground, Identicon.withMode, Identicon.new]
      rcases h12 : s.get? 12 with _ | b12
      · simp [h12]
      rcases h13 : s.get? 13 with _ | b13
      · simp [h12, h13]
      rcases h14 : s.get? 14 with _ | b14
      · simp [h12, h13, h14]
      have h15 : s[15]? = none := by
        rw [← List.get?_eq_getElem?]
        exact List.get?_eq_none.mpr (by omega)
      simp [h12, h13, h14, h15]
    exact ⟨hfg, image_none_of_foreground_none _ hfg⟩
  · intro hshort
    have hfg : ((Identicon.new s).withMode (Mode.identiconJS opts)).foreground = none := by
      simp [Identicon.foreground, Identicon.withMode, Identicon.new, hshort]
    exact ⟨hfg, image_none_of_foreground_none _ hfg⟩

/-- C9 witness: the theorem applied to the empty source. -/
theorem short_source_panics_witness :
    ([] : List Byte).length < 16 ∧
    ((Identicon.new ([] : List Byte)).withMode Mode.github).foreground = none ∧
    ((Identicon.new ([] : List Byte)).withMode Mode.github).image = none ∧
    ([] : List Byte).length < 4 ∧
    ((Identicon.new ([] : List Byte)).withMode
      (Mode.identiconJS IdenticonJSOptions.mkDefault)).foreground = none ∧
    ((Identicon.new ([] : List Byte)).withMode
      (Mode.identiconJS IdenticonJSOptions.mkDefault)).image = none :=
  ⟨by decide,
   ((short_source_panics [] IdenticonJSOptions.mkDefault).1 (by decide)).1,
   ((short_source_panics [] IdenticonJSOptions.mkDefault).1 (by decide)).2,
   by decide,
   ((short_source_panics [] IdenticonJSOptions.mkDefault).2 (by decide)).1,
   ((short_source_panics [] IdenticonJSOptions.mkDefault).2 (by decide)).2⟩

/-- The Identicon.js foreground in closed form: the hue is the 28-bit
big-endian concatenation of the low nibble of the 4th-from-last byte and the
last three bytes, mapped to degrees; saturation and luminance come from the
options only. Shared by the Identicon.js claims. -/
lemma foregroundJS (s : List Byte) (opts : IdenticonJSOptions) (h : 4 ≤ s.length) :
    ((Identicon.new s).withMode (Mode.identiconJS opts)).foreground =
      some ((HSL.new
        (map ((s.getD (s.length - 4) 0).val % 16 * 2 ^ 24 +
              (s.getD (s.length - 3) 0).val * 2 ^ 16 +
              (s.getD (s.length - 2) 0).val * 2 ^ 8 +
              (s.getD (s.length - 1) 0).val) 0 0x0fffffff 0 360)
        (opts.saturation * 100) (opts.brightness * 100)).rgb) := by
  have hh : ((((s.getD (s.length - 4) 0).val &&& 0x0f) <<< 8 ||| (s.getD (s.length - 3) 0).val) <<< 8
        ||| (s.getD (s.length - 2) 0).val) <<< 8 ||| (s.getD (s.length - 1) 0).val =
      (s.getD (s.length - 4) 0).val % 16 * 2 ^ 24 + (s.getD (s.length - 3) 0).val * 2 ^ 16 +
        (s.getD (s.length - 2) 0).val * 2 ^ 8 + (s.getD (s.length - 1) 0).val := by
    rw [land15, shiftLeft8_lor _ _ (s.getD (s.length - 3) 0).isLt,
      shiftLeft8_lor _ _ (s.getD (s.length - 2) 0).isLt,
      shiftLeft8_lor _ _ (s.getD (s.length - 1) 0).isLt]
    ring
  simp only [Identicon.foreground, Identicon.withMode, Identicon.new]
  rw [if_neg (by omega)]
  simp only [get_some_of_lt s (s.length - 4) 0 (by omega),
    get_some_of_lt s (s.length - 3) 0 (by omega), get_some_of_lt s (s.length - 2) 0 (by omega),
    get_some_of_lt s (s.length - 1) 0 (by omega), Option.bind_some, Option.some_bind]
  rw [← hh]
  rfl

/-- C5: in Identicon.js mode, for a source of length `l ≥ 4`, the foreground
is the HSL→RGB conversion of hue `map(h, 0, 0x0FFFFFFF, 0, 360)` with `h` the
28-bit big-endian concatenation of the low nibble of `s[l-4]` and bytes
`s[l-3]`, `s[l-2]`, `s[l-1]`; saturation and luminance are the configured
fractions times 100 — only the hue is hash-derived. -/
theorem identiconjs_foreground (s : List Byte) (opts : IdenticonJSOptions) (h : 4 ≤ s.length) :
    ((Identicon.new s).withMode (Mode.identiconJS opts)).foreground =
      some ((HSL.new
        (map ((s.getD (s.length - 4) 0).val % 16 * 2 ^ 24 +
              (s.getD (s.length - 3) 0).val * 2 ^ 16 +
              (s.getD (s.length - 2) 0).val * 2 ^ 8 +
              (s.getD (s.length - 1) 0).val) 0 0x0fffffff 0 360)
        (opts.saturation * 100) (opts.brightness * 100)).rgb) :=
  foregroundJS s opts h

/-- C5 witness: the theorem applied to a concrete 4-byte source. -/
theorem identiconjs_foreground_witness :
    4 ≤ ([⟨1, by norm_num⟩, ⟨2, by norm_num⟩, ⟨3, by norm_num⟩, ⟨4, by norm_num⟩] :
      List Byte).length ∧
    ((Identicon.new [⟨1, by norm_num⟩, ⟨2, by norm_num⟩, ⟨3, by norm_num⟩, ⟨4, by norm_num⟩])
        |>.withMode (Mode.identiconJS IdenticonJSOptions.mkDefault)).foreground =
      some ((HSL.new (map (1 % 16 * 2 ^ 24 + 2 * 2 ^ 16 + 3 * 2 ^ 8 + 4) 0 0x0fffffff 0 360)
        (IdenticonJSOptions.mkDefault.saturation * 100)
        (IdenticonJSOptions.mkDefault.brightness * 100)).rgb) :=
  ⟨by decide,
    identiconjs_foreground
      [⟨1, by norm_num⟩, ⟨2, by norm_num⟩, ⟨3, by norm_num⟩, ⟨4, by norm_num⟩]
      IdenticonJSOptions.mkDefault (by decide)⟩

/-- C6: in Identicon.js mode two sources of length at least 4 sharing the same
last four bytes give the same foreground color, whatever their total
lengths. -/
theorem identiconjs_tail_only (s1 s2 : List Byte) (opts : IdenticonJSOptions)
    (h1 : 4 ≤ s1.length) (h2 : 4 ≤ s2.length)
    (htail : s1.drop (s1.length - 4) = s2.drop (s2.length - 4)) :
    ((Identicon.new s1).withMode (Mode.identiconJS opts)).foreground =
      ((Identicon.new s2).withMode (Mode.identiconJS opts)).foreground := by
  have base : ∀ i, s1.getD (s1.length - 4 + i) 0 = s2.getD (s2.length - 4 + i) 0 := by
    intro i
    calc s1.getD (s1.length - 4 + i) 0
        = (s1.drop (s1.length - 4)).getD i 0 := by
          rw [List.getD_eq_getElem?_getD, List.getD_eq_getElem?_getD, List.getElem?_drop]
      _ = (s2.drop (s2.length - 4)).getD i 0 := by rw [htail]
      _ = s2.getD (s2.length - 4 + i) 0 := by
          rw [List.getD_eq_getElem?_getD, List.getD_eq_getElem?_getD, List.getElem?_drop]
  have k4 : s1.getD (s1.length - 4) 0 = s2.getD (s2.length - 4) 0 := by simpa using base 0
  have k3 : s1.getD (s1.length - 3) 0 = s2.getD (s2.length - 3) 0 := by
    have e1 : s1.length - 3 = s1.length - 4 + 1 := by omega
    have e2 : s2.length - 3 = s2.length - 4 + 1 := by omega
    rw [e1, e2]
    exact base 1
  have k2 : s1.getD (s1.length - 2) 0 = s2.getD (s2.length - 2) 0 := by
    have e1 : s1.length - 2 = s1.length - 4 + 2 := by omega
    have e2 : s2.length - 2 = s2.length - 4 + 2 := by omega
    rw [e1, e2]
    exact base 2
  have k1 : s1.getD (s1.length - 1) 0 = s2.getD (s2.length - 1) 0 := by
    have e1 : s1.length - 1 = s1.length - 4 + 3 := by omega
    have e2 : s2.length - 1 = s2.length - 4 + 3 := by omega
    rw [e1, e2]
    exact base 3
  rw [foregroundJS s1 opts h1, foregroundJS s2 opts h2, k4, k3, k2, k1]

/-- C6 witness: a 4-byte source and a 6-byte source with the same tail. -/
theorem identiconjs_tail_only_witness :
    let s1 : List Byte := [⟨1, by norm_num⟩, ⟨2, by norm_num⟩, ⟨3, by norm_num⟩, ⟨4, by norm_num⟩]
    let s2 : List Byte := [⟨9, by norm_num⟩, ⟨9, by norm_num⟩, ⟨1, by norm_num⟩, ⟨2, by norm_num⟩,
      ⟨3, by norm_num⟩, ⟨4, by norm_num⟩]
    ((Identicon.new s1).withMode (Mode.identiconJS IdenticonJSOptions.mkDefault)).foreground =
      ((Identicon.new s2).withMode (Mode.identiconJS IdenticonJSOptions.mkDefault)).foreground :=
  identiconjs_tail_only _ _ IdenticonJSOptions.mkDefault (by decide) (by decide) (by decide)

/-! ### Pointwise semantics of the pixels loop -/

lemma pixelsLoop_nil (bits px : List Bool) : pixelsLoop [] bits px = px := rfl

lemma pixelsLoop_cons (col row : ℕ) (rest : List (ℕ × ℕ)) (bits px : List Bool) :
    pixelsLoop ((col, row) :: rest) bits px =
      pixelsLoop rest bits.tail
        ((px.set (col + row * 5) (bits.headD false)).set
          ((4 - col) + row * 5) (bits.headD false)) := rfl

/-- The value cell `j` holds after the remaining loop steps, given the current
default: each step overwrites `j` when one of its two write indices hits it. -/
def writeVal : List (Nat × Nat) → List Bool → Nat → Bool → Bool
  | [], _, _, dflt => dflt
  | (col, row) :: rest, bits, j, dflt =>
    writeVal rest bits.tail j
      (if 4 - col + row * 5 = j then bits.headD false
       else if col + row * 5 = j then bits.headD false
       else dflt)

lemma writeVal_nil (bits : List Bool) (j : ℕ) (dflt : Bool) :
    writeVal [] bits j dflt = dflt := rfl

lemma writeVal_cons (col row : ℕ) (rest : List (ℕ × ℕ)) (bits : List Bool) (j : ℕ)
    (dflt : Bool) :
    writeVal ((col, row) :: rest) bits j dflt =
      writeVal rest bits.tail j
        (if 4 - col + row * 5 = j then bits.headD false
         else if col + row * 5 = j then bits.headD false
         else dflt) := rfl

lemma getD_set (l : List Bool) (i j : ℕ) (v : Bool) (h : j < l.length) :
    (l.set i v).getD j false = if i = j then v else l.getD j false := by
  rw [List.getD_eq_getElem?_getD, List.getD_eq_getElem?_getD, List.getElem?_set]
  by_cases hij : i = j <;> simp [hij, h, List.getElem?_eq_getElem h]

lemma length_pixelsLoop (L : List (ℕ × ℕ)) :
    ∀ bits px : List Bool, (pixelsLoop L bits px).length = px.length := by
  induction L with
  | nil => intro bits px; rfl
  | cons p rest ih =>
    obtain ⟨c, r⟩ := p
    intro bits px
    rw [pixelsLoop_cons, ih]
    simp [List.length_set]

lemma pixelsLoop_getD (L : List (ℕ × ℕ)) :
    ∀ (bits px : List Bool) (j : ℕ), j < px.length →
      (pixelsLoop L bits px).getD j false = writeVal L bits j (px.getD j false) := by
  induction L with
  | nil => intro bits px j hj; rfl
  | cons p rest ih =>
    obtain ⟨c, r⟩ := p
    intro bits px j hj
    rw [pixelsLoop_cons, ih bits.tail _ j (by simpa [List.length_set] using hj)]
    show _ = writeVal rest bits.tail j _
    congr 1
    rw [getD_set _ _ _ _ (by simpa [List.length_set] using hj), getD_set _ _ _ _ hj]

lemma pixels_getD_eval (s : List Byte) (j : ℕ) (hj : j < 25) :
    ((Identicon.new s).pixels).getD j false =
      writeVal [(2,0),(2,1),(2,2),(2,3),(2,4),(1,0),(1,1),(1,2),(1,3),(1,4),
        (0,0),(0,1),(0,2),(0,3),(0,4)]
        ((nibbles s).map (fun x => decide (x % 2 = 0))) j false := by
  have ho : pixelsOrder =
      [(2,0),(2,1),(2,2),(2,3),(2,4),(1,0),(1,1),(1,2),(1,3),(1,4),
       (0,0),(0,1),(0,2),(0,3),(0,4)] := rfl
  have hlen : j < (List.replicate 25 false).length := by simpa using hj
  have h := pixelsLoop_getD pixelsOrder ((nibbles s).map (fun x => decide (x % 2 = 0)))
    (List.replicate 25 false) j hlen
  have hd : (List.replicate 25 false).getD j false = false := by
    rw [List.getD_eq_getElem?_getD, List.getElem?_replicate]
    split <;> rfl
  simp only [Identicon.pixels, Identicon.new]
  rw [h, ho, hd]

lemma optionMap_getD_match (o : Option ℕ) :
    (Option.map (fun x => decide (x % 2 = 0)) o).getD false =
      (match o with
       | some n => decide (n % 2 = 0)
       | none => false) := by
  cases o <;> rfl

lemma pixels_length (s : List Byte) : ((Identicon.new s).pixels).length = 25 := by
  simp only [Identicon.pixels, Identicon.new]
  rw [length_pixelsLoop]
  simp

set_option maxHeartbeats 4000000 in
/-- C3: `pixels` consumes parity bits in the order column 2, then 1, then 0,
rows 0–4 within each column; the k-th consumed bit (`k = (2-col)*5 + row`) is
the parity of the k-th nibble, cell `(col,row)` and its mirror `(4-col,row)`
are painted iff that nibble exists and is even, and exhaustion yields `false`
(the grid always has its 25 cells) rather than a failure. -/
theorem pixels_consumption (s : List Byte) (col row : ℕ) (hc : col ≤ 2) (hr : row < 5) :
    ((Identicon.new s).pixels).length = 25 ∧
    ((Identicon.new s).pixels).getD (col + row * 5) false =
      (match (nibbles s).get? ((2 - col) * 5 + row) with
       | some n => decide (n % 2 = 0)
       | none => false) ∧
    ((Identicon.new s).pixels).getD (4 - col + row * 5) false =
      (match (nibbles s).get? ((2 - col) * 5 + row) with
       | some n => decide (n % 2 = 0)
       | none => false) := by
  refine ⟨pixels_length s, ?_, ?_⟩ <;>
    (interval_cases col <;> interval_cases row <;>
      (rw [pixels_getD_eval s _ (by norm_num)]
       simp only [writeVal_cons, writeVal_nil]
       simp
       simp only [optionMap_getD_match, List.head?_eq_getElem?]))

/-- C3 witness: the theorem applied at cell `(1, 3)` of a concrete source. -/
theorem pixels_consumption_witness :
    (1 : ℕ) ≤ 2 ∧ (3 : ℕ) < 5 ∧
    (((Identicon.new [⟨0x12, by norm_num⟩, ⟨0x34, by norm_num⟩]).pixels).getD (1 + 3 * 5) false =
      (match (nibbles [⟨0x12, by norm_num⟩, ⟨0x34, by norm_num⟩]).get? ((2 - 1) * 5 + 3) with
       | some n => decide (n % 2 = 0)
       | none => false)) :=
  ⟨by decide, by decide,
    (pixels_consumption [⟨0x12, by norm_num⟩, ⟨0x34, by norm_num⟩] 1 3
      (by decide) (by decide)).2.1⟩

set_option maxHeartbeats 4000000 in
/-- C4: the pixel grid is mirror-symmetric: entry `row*5 + col` equals entry
`row*5 + (4 - col)` for every row and column below 5. -/
theorem pixels_mirror (s : List Byte) (row col : ℕ) (hr : row < 5) (hc : col < 5) :
    ((Identicon.new s).pixels).getD (row * 5 + col) false =
      ((Identicon.new s).pixels).getD (row * 5 + (4 - col)) false := by
  interval_cases row <;> interval_cases col <;>
    (rw [pixels_getD_eval s _ (by norm_num)]
     try rw [pixels_getD_eval s _ (by norm_num)]
     try (simp only [writeVal_cons, writeVal_nil]; simp))

/-- C4 witness: the theorem applied at row 2, column 0 of a concrete source. -/
theorem pixels_mirror_witness :
    (2 : ℕ) < 5 ∧ (0 : ℕ) < 5 ∧
    ((Identicon.new [⟨7, by norm_num⟩]).pixels).getD (2 * 5 + 0) false =
      ((Identicon.new [⟨7, by norm_num⟩]).pixels).getD (2 * 5 + (4 - 0)) false :=
  ⟨by decide, by decide, pixels_mirror [⟨7, by norm_num⟩] 2 0 (by decide) (by decide)⟩

lemma nibbles_append (a b : List Byte) : nibbles (a ++ b) = nibbles a ++ nibbles b := by
  simp [nibbles]

lemma nibbles_prefix_getElem? (s1 s2 : List Byte) (h1 : 8 ≤ s1.length) (h2 : 8 ≤ s2.length)
    (hpre : s1.take 8 = s2.take 8) (k : ℕ) (hk : k < 16) :
    (nibbles s1)[k]? = (nibbles s2)[k]? := by
  have e1 : nibbles s1 = nibbles (s1.take 8) ++ nibbles (s1.drop 8) := by
    conv_lhs => rw [← List.take_append_drop 8 s1]
    rw [nibbles_append]
  have e2 : nibbles s2 = nibbles (s2.take 8) ++ nibbles (s2.drop 8) := by
    conv_lhs => rw [← List.take_append_drop 8 s2]
    rw [nibbles_append]
  have hl1 : (nibbles (s1.take 8)).length = 16 := by
    rw [length_nibbles]
    simp [List.length_take]
    omega
  have hl2 : (nibbles (s2.take 8)).length = 16 := by
    rw [length_nibbles]
    simp [List.length_take]
    omega
  rw [e1, e2, List.getElem?_append, List.getElem?_append, hl1, hl2, if_pos hk, if_pos hk, hpre]

set_option maxHeartbeats 4000000 in
/-- C10: the pixel grid consumes at most the first 15 nibbles, so two sources
of length at least 8 that agree on their first 8 bytes produce identical
25-cell grids, whatever their tails and total lengths. -/
theorem pixels_first8 (s1 s2 : List Byte) (h1 : 8 ≤ s1.length) (h2 : 8 ≤ s2.length)
    (hpre : s1.take 8 = s2.take 8) :
    (Identicon.new s1).pixels = (Identicon.new s2).pixels := by
  have hk16 : ∀ k, k < 16 → (nibbles s1)[k]? = (nibbles s2)[k]? :=
    fun k hk => nibbles_prefix_getElem? s1 s2 h1 h2 hpre k hk
  have hgetD : ∀ j, j < 25 →
      ((Identicon.new s1).pixels).getD j false = ((Identicon.new s2).pixels).getD j false := by
    intro j hj
    interval_cases j <;>
      (rw [pixels_getD_eval s1 _ (by norm_num), pixels_getD_eval s2 _ (by norm_num)]
       simp only [writeVal_cons, writeVal_nil]
       simp [List.head?_eq_getElem?, hk16])
  apply List.ext_getElem?
  intro i
  by_cases hi : i < 25
  · have g1 : ((Identicon.new s1).pixels)[i]? =
        some (((Identicon.new s1).pixels).getD i false) := by
      rw [← List.get?_eq_getElem?]
      exact get_some_of_lt _ i false (by rw [pixels_length]; exact hi)
    have g2 : ((Identicon.new s2).pixels)[i]? =
        some (((Identicon.new s2).pixels).getD i false) := by
      rw [← List.get?_eq_getElem?]
      exact get_some_of_lt _ i false (by rw [pixels_length]; exact hi)
    rw [g1, g2, hgetD i hi]
  · rw [List.getElem?_eq_none (by rw [pixels_length]; omega),
      List.getElem?_eq_none (by rw [pixels_length]; omega)]

/-- C10 witness: an 8-byte source and a 10-byte source sharing the first 8
bytes. -/
theorem pixels_first8_witness :
    let s1 : List Byte := [⟨1, by norm_num⟩, ⟨2, by norm_num⟩, ⟨3, by norm_num⟩, ⟨4, by norm_num⟩,
      ⟨5, by norm_num⟩, ⟨6, by norm_num⟩, ⟨7, by norm_num⟩, ⟨8, by norm_num⟩]
    let s2 : List Byte := [⟨1, by norm_num⟩, ⟨2, by norm_num⟩, ⟨3, by norm_num⟩, ⟨4, by norm_num⟩,
      ⟨5, by norm_num⟩, ⟨6, by norm_num⟩, ⟨7, by norm_num⟩, ⟨8, by norm_num⟩,
      ⟨255, by norm_num⟩, ⟨0, by norm_num⟩]
    (Identicon.new s1).pixels = (Identicon.new s2).pixels :=
  pixels_first8 _ _ (by decide) (by decide) (by decide)

/-! ### Rasterization semantics -/

lemma putPixel_in (img : Img) (x y : ℕ) (c : Rgb) (hx : x < img.width) (hy : y < img.height) :
    putPixel img x y c =
      some ⟨img.width, img.height, fun a b => if a = x ∧ b = y then c else img.data a b⟩ := by
  simp [putPixel, hx, hy]

lemma colFill (c : Rgb) (x : ℕ) :
    ∀ (n y0 : ℕ) (im : Img), x < im.width → y0 + n ≤ im.height →
      ∃ im', (List.range' y0 n).foldlM (fun im2 y => putPixel im2 x y c) im = some im' ∧
        im'.width = im.width ∧ im'.height = im.height ∧
        ∀ a b, im'.data a b = if a = x ∧ y0 ≤ b ∧ b < y0 + n then c else im.data a b := by
  intro n
  induction n with
  | zero =>
    intro y0 im hx hy
    refine ⟨im, by simp [List.range'], rfl, rfl, ?_⟩
    intro a b
    rw [if_neg]
    rintro ⟨-, h1, h2⟩
    omega
  | succ n ih =>
    intro y0 im hx hy
    obtain ⟨im', he, hw, hh, hdata⟩ := ih (y0 + 1)
      ⟨im.width, im.height, fun a b => if a = x ∧ b = y0 then c else im.data a b⟩
      hx (by simpa using by omega)
    refine ⟨im', ?_, hw, hh, ?_⟩
    · rw [List.range'_succ, List.foldlM_cons, putPixel_in im x y0 c hx (by omega)]
      exact he
    · intro a b
      rw [hdata a b]
      dsimp only
      split_ifs <;> first | rfl | omega

lemma rowFill (c : Rgb) (y0 y1 : ℕ) (hy01 : y0 ≤ y1) :
    ∀ (m x0 : ℕ) (im : Img), x0 + m ≤ im.width → y1 ≤ im.height →
      ∃ im', (List.range' x0 m).foldlM
          (fun im2 x => (List.range' y0 (y1 - y0)).foldlM (fun im3 y => putPixel im3 x y c) im2)
          im = some im' ∧
        im'.width = im.width ∧ im'.height = im.height ∧
        ∀ a b, im'.data a b =
          if x0 ≤ a ∧ a < x0 + m ∧ y0 ≤ b ∧ b < y1 then c else im.data a b := by
  intro m
  induction m with
  | zero =>
    intro x0 im hx hy
    refine ⟨im, by simp [List.range'], rfl, rfl, ?_⟩
    intro a b
    rw [if_neg]
    rintro ⟨h1, h2, -⟩
    omega
  | succ m ih =>
    intro x0 im hx hy
    obtain ⟨im1, he1, hw1, hh1, hd1⟩ := colFill c x0 (y1 - y0) y0 im (by omega) (by omega)
    obtain ⟨im', he, hw, hh, hdata⟩ := ih (x0 + 1) im1 (by omega) (by omega)
    refine ⟨im', ?_, by rw [hw, hw1], by rw [hh, hh1], ?_⟩
    · rw [List.range'_succ, List.foldlM_cons, he1]
      exact he
    · intro a b
      rw [hdata a b, hd1 a b]
      split_ifs <;> first | rfl | omega

lemma rect_spec (im : Img) (x0 y0 x1 y1 : ℕ) (c : Rgb)
    (hx : x1 ≤ im.width) (hy : y1 ≤ im.height) (hx01 : x0 ≤ x1) (hy01 : y0 ≤ y1) :
    ∃ im', rect im x0 y0 x1 y1 c = some im' ∧
      im'.width = im.width ∧ im'.height = im.height ∧
      ∀ a b, im'.data a b =
        if x0 ≤ a ∧ a < x1 ∧ y0 ≤ b ∧ b < y1 then c else im.data a b := by
  obtain ⟨im', he, hw, hh, hdata⟩ := rowFill c y0 y1 hy01 (x1 - x0) x0 im (by omega) hy
  refine ⟨im', he, hw, hh, ?_⟩
  intro a b
  rw [hdata a b]
  split_ifs <;> first | rfl | omega

/-- One cell of the sprite loop in `Identicon::image`. -/
def cellStep (px : List Bool) (fg : Rgb) (row col : ℕ) (im : Img) : Option Img :=
  if px.getD (row * 5 + col) false then
    rect im (col * 70 + 35) (row * 70 + 35) (col * 70 + 70 + 35) (row * 70 + 70 + 35) fg
  else pure im

lemma image_eq (self : Identicon) :
    self.image =
      self.foreground.bind (fun fg =>
        (List.range 5).foldlM (fun im row =>
          (List.range 5).foldlM (fun im2 col => cellStep self.pixels fg row col im2) im)
          ⟨self.size, self.size, fun _ _ => ⟨240, 240, 240⟩⟩) := rfl

lemma rowCells (px : List Bool) (fg : Rgb) (row : ℕ) (hrow : row < 5) :
    ∀ (cols : List ℕ) (im : Img), im.width = 420 → im.height = 420 → (∀ c ∈ cols, c < 5) →
      ∃ im', cols.foldlM (fun im2 col => cellStep px fg row col im2) im = some im' ∧
        im'.width = 420 ∧ im'.height = 420 ∧
        ∀ a b, im'.data a b =
          if ∃ col ∈ cols, px.getD (row * 5 + col) false ∧
              col * 70 + 35 ≤ a ∧ a < col * 70 + 70 + 35 ∧
              row * 70 + 35 ≤ b ∧ b < row * 70 + 70 + 35
          then fg else im.data a b := by
  intro cols
  induction cols with
  | nil =>
    intro im hw hh hmem
    refine ⟨im, rfl, hw, hh, ?_⟩
    intro a b
    rw [if_neg]
    rintro ⟨col, hcol, -⟩
    simp at hcol
  | cons c cols ih =>
    intro im hw hh hmem
    have hc5 : c < 5 := hmem c (by simp)
    by_cases hpaint : px.getD (row * 5 + c) false
    · obtain ⟨im1, he1, hw1, hh1, hd1⟩ := rect_spec im (c * 70 + 35) (row * 70 + 35)
        (c * 70 + 70 + 35) (row * 70 + 70 + 35) fg (by omega) (by omega) (by omega) (by omega)
      obtain ⟨im', he, hw', hh', hdata⟩ := ih im1 (by omega) (by omega)
        (fun d hd => hmem d (by simp [hd]))
      refine ⟨im', ?_, hw', hh', ?_⟩
      · rw [List.foldlM_cons, show cellStep px fg row c im = some im1 from by
          rw [cellStep, if_pos hpaint, he1]]
        exact he
      · intro a b
        rw [hdata a b, hd1 a b]
        by_cases h1 : ∃ col ∈ cols, px.getD (row * 5 + col) false ∧
            col * 70 + 35 ≤ a ∧ a < col * 70 + 70 + 35 ∧
            row * 70 + 35 ≤ b ∧ b < row * 70 + 70 + 35
        · rw [if_pos h1, if_pos ?_]
          obtain ⟨d, hd, hp⟩ := h1
          exact ⟨d, by simp [hd], hp⟩
        · rw [if_neg h1]
          by_cases h2 : c * 70 + 35 ≤ a ∧ a < c * 70 + 70 + 35 ∧
              row * 70 + 35 ≤ b ∧ b < row * 70 + 70 + 35
          · rw [if_pos h2, if_pos ?_]
            exact ⟨c, by simp, hpaint, h2.1, h2.2.1, h2.2.2.1, h2.2.2.2⟩
          · rw [if_neg h2, if_neg ?_]
            rintro ⟨d, hd, hp⟩
            rcases List.mem_cons.mp hd with rfl | hd2
            · exact h2 ⟨hp.2.1, hp.2.2.1, hp.2.2.2.1, hp.2.2.2.2⟩
            · exact h1 ⟨d, hd2, hp⟩
    · obtain ⟨im', he, hw', hh', hdata⟩ := ih im hw hh (fun d hd => hmem d (by simp [hd]))
      refine ⟨im', ?_, hw', hh', ?_⟩
      · rw [List.foldlM_cons, show cellStep px fg row c im = some im from by
          rw [cellStep, if_neg hpaint]; rfl]
        exact he
      · intro a b
        rw [hdata a b]
        by_cases h1 : ∃ col ∈ cols, px.getD (row * 5 + col) false ∧
            col * 70 + 35 ≤ a ∧ a < col * 70 + 70 + 35 ∧
            row * 70 + 35 ≤ b ∧ b < row * 70 + 70 + 35
        · rw [if_pos h1, if_pos ?_]
          obtain ⟨d, hd, hp⟩ := h1
          exact ⟨d, by simp [hd], hp⟩
        · rw [if_neg h1, if_neg ?_]
          rintro ⟨d, hd, hp⟩
          rcases List.mem_cons.mp hd with rfl | hd2
          · exact hpaint hp.1
          · exact h1 ⟨d, hd2, hp⟩

lemma gridCells (px : List Bool) (fg : Rgb) :
    ∀ (rows : List ℕ) (im : Img), im.width = 420 → im.height = 420 → (∀ r ∈ rows, r < 5) →
      ∃ im', rows.foldlM (fun im2 row =>
          (List.range 5).foldlM (fun im3 col => cellStep px fg row col im3) im2) im = some im' ∧
        im'.width = 420 ∧ im'.height = 420 ∧
        ∀ a b, im'.data a b =
          if ∃ row ∈ rows, ∃ col ∈ List.range 5, px.getD (row * 5 + col) false ∧
              col * 70 + 35 ≤ a ∧ a < col * 70 + 70 + 35 ∧
              row * 70 + 35 ≤ b ∧ b < row * 70 + 70 + 35
          then fg else im.data a b := by
  intro rows
  induction rows with
  | nil =>
    intro im hw hh hmem
    refine ⟨im, rfl, hw, hh, ?_⟩
    intro a b
    rw [if_neg]
    rintro ⟨r, hr, -⟩
    simp at hr
  | cons r rows ih =>
    intro im hw hh hmem
    have hr5 : r < 5 := hmem r (by simp)
    obtain ⟨im1, he1, hw1, hh1, hd1⟩ := rowCells px fg r hr5 (List.range 5) im hw hh
      (fun c hc => List.mem_range.mp hc)
    obtain ⟨im', he, hw', hh', hdata⟩ := ih im1 hw1 hh1 (fun d hd => hmem d (by simp [hd]))
    refine ⟨im', ?_, hw', hh', ?_⟩
    · rw [List.foldlM_cons, he1]
      exact he
    · intro a b
      rw [hdata a b, hd1 a b]
      by_cases h1 : ∃ row ∈ rows, ∃ col ∈ List.range 5, px.getD (row * 5 + col) false ∧
          col * 70 + 35 ≤ a ∧ a < col * 70 + 70 + 35 ∧
          row * 70 + 35 ≤ b ∧ b < row * 70 + 70 + 35
      · rw [if_pos h1, if_pos ?_]
        obtain ⟨d, hd, hp⟩ := h1
        exact ⟨d, by simp [hd], hp⟩
      · rw [if_neg h1]
        by_cases h2 : ∃ col ∈ List.range 5, px.getD (r * 5 + col) false ∧
            col * 70 + 35 ≤ a ∧ a < col * 70 + 70 + 35 ∧
            r * 70 + 35 ≤ b ∧ b < r * 70 + 70 + 35
        · rw [if_pos h2, if_pos ?_]
          exact ⟨r, by simp, h2⟩
        · rw [if_neg h2, if_neg ?_]
          rintro ⟨d, hd, hp⟩
          rcases List.mem_cons.mp hd with rfl | hd2
          · exact h2 hp
          · exact h1 ⟨d, hd2, hp⟩

/-- The GitHub foreground in closed form; shared by the GitHub-mode claims. -/
lemma foregroundGH (s : List Byte) (h : 16 ≤ s.length) :
    ((Identicon.new s).withMode Mode.github).foreground =
      some ((HSL.new
        (map ((((s.getD 12 0).val &&& 0x0f) <<< 8) ||| (s.getD 13 0).val) 0 4095 0 360)
        (65 - map (s.getD 14 0).val 0 255 0 20)
        (75 - map (s.getD 15 0).val 0 255 0 20)).rgb) := by
  simp only [Identicon.foreground, Identicon.withMode, Identicon.new,
    get_some_of_lt s 12 (0 : Byte) (by omega), get_some_of_lt s 13 (0 : Byte) (by omega),
    get_some_of_lt s 14 (0 : Byte) (by omega), get_some_of_lt s 15 (0 : Byte) (by omega),
    Option.bind_some]
  rfl

set_option maxHeartbeats 1000000 in
/-- C1: for every source satisfying its mode's length precondition (every
`Identicon` reachable through the API has size 420), `image()` returns a
420×420 buffer holding the background RGB (240,240,240) everywhere except the
rectangles `[col*70+35, col*70+105) × [row*70+35, row*70+105)` of painted
cells `(col,row)`, which hold the foreground color; every painted rectangle
lies within the buffer bounds. -/
theorem image_raster (s : List Byte) (m : Mode)
    (hpre : match m with
      | Mode.github => 16 ≤ s.length
      | Mode.identiconJS _ => 4 ≤ s.length) :
    ∃ fg img, ((Identicon.new s).withMode m).foreground = some fg ∧
      ((Identicon.new s).withMode m).image = some img ∧
      img.width = 420 ∧ img.height = 420 ∧
      (∀ col row : ℕ, col < 5 → row < 5 →
        col * 70 + 105 ≤ 420 ∧ row * 70 + 105 ≤ 420) ∧
      (∀ x y : ℕ,
        ((∃ col < 5, ∃ row < 5,
            ((Identicon.new s).withMode m).pixels.getD (row * 5 + col) false ∧
            col * 70 + 35 ≤ x ∧ x < col * 70 + 105 ∧
            row * 70 + 35 ≤ y ∧ y < row * 70 + 105) →
          img.data x y = fg) ∧
        (¬ (∃ col < 5, ∃ row < 5,
            ((Identicon.new s).withMode m).pixels.getD (row * 5 + col) false ∧
            col * 70 + 35 ≤ x ∧ x < col * 70 + 105 ∧
            row * 70 + 35 ≤ y ∧ y < row * 70 + 105) →
          img.data x y = ⟨240, 240, 240⟩)) := by
  have hfg : ∃ fg, ((Identicon.new s).withMode m).foreground = some fg := by
    cases m with
    | github => exact ⟨_, foregroundGH s hpre⟩
    | identiconJS opts => exact ⟨_, foregroundJS s opts hpre⟩
  obtain ⟨fg, hfg⟩ := hfg
  obtain ⟨img, he, hw, hh, hdata⟩ := gridCells ((Identicon.new s).withMode m).pixels fg
    (List.range 5) ⟨420, 420, fun _ _ => ⟨240, 240, 240⟩⟩ rfl rfl
    (fun r hr => List.mem_range.mp hr)
  refine ⟨fg, img, hfg, ?_, hw, hh, ?_, ?_⟩
  · rw [image_eq, hfg]
    exact he
  · intro col row hc hr
    omega
  · intro x y
    constructor
    · rintro ⟨c, hc, r, hr, hp, h1, h2, h3, h4⟩
      rw [hdata x y,
        if_pos ⟨r, List.mem_range.mpr hr, c, List.mem_range.mpr hc, hp, h1, by omega, h3,
          by omega⟩]
    · intro hn
      rw [hdata x y, if_neg ?_]
      rintro ⟨r, hr, c, hc, hp, h1, h2, h3, h4⟩
      exact hn ⟨c, List.mem_range.mp hc, r, List.mem_range.mp hr, hp, h1, by omega, h3, by omega⟩

/-- C1 witness: the theorem applied to the all-zero 16-byte source in GitHub
mode. -/
theorem image_raster_witness :
    (16 : ℕ) ≤ (List.replicate 16 (0 : Byte)).length ∧
    ∃ fg img,
      ((Identicon.new (List.replicate 16 (0 : Byte))).withMode Mode.github).foreground =
        some fg ∧
      ((Identicon.new (List.replicate 16 (0 : Byte))).withMode Mode.github).image = some img ∧
      img.width = 420 ∧ img.height = 420 ∧
      (∀ col row : ℕ, col < 5 → row < 5 →
        col * 70 + 105 ≤ 420 ∧ row * 70 + 105 ≤ 420) ∧
      (∀ x y : ℕ,
        ((∃ col < 5, ∃ row < 5,
            ((Identicon.new (List.replicate 16 (0 : Byte))).withMode
                Mode.github).pixels.getD (row * 5 + col) false ∧
            col * 70 + 35 ≤ x ∧ x < col * 70 + 105 ∧
            row * 70 + 35 ≤ y ∧ y < row * 70 + 105) →
          img.data x y = fg) ∧
        (¬ (∃ col < 5, ∃ row < 5,
            ((Identicon.new (List.replicate 16 (0 : Byte))).withMode
                Mode.github).pixels.getD (row * 5 + col) false ∧
            col * 70 + 35 ≤ x ∧ x < col * 70 + 105 ∧
            row * 70 + 35 ≤ y ∧ y < row * 70 + 105) →
          img.data x y = ⟨240, 240, 240⟩)) :=
  ⟨by decide, image_raster (List.replicate 16 (0 : Byte)) Mode.github (by decide)⟩
